import Mathlib

/-!
Verification development for the publication-search backend
(`backend/main.py`).  The two core functions, `build_pubmed_query` and
`parse_pubmed_xml`, are embedded below as executable Lean definitions,
translated directly from the Python source.  Strings are handled as
`List Char` in the core definitions, wrapped into `String` at the
boundaries.  The regular-expression scans of the source are embedded as
explicit character scanners with the same matching semantics
(ordered alternation, left-to-right scan, one-character skip on failure).
-/

/-- Python `str` whitespace (ASCII range), as used by `str.strip()`. -/
def isPySpace (c : Char) : Bool :=
  c = ' ' || c = '\t' || c = '\n' || c = '\r' || c = '\x0b' || c = '\x0c'

/-- Python's `str.strip()`: drop leading and trailing whitespace. -/
def pyStrip (cs : List Char) : List Char :=
  ((cs.dropWhile isPySpace).reverse.dropWhile isPySpace).reverse

/-- Python's `str.split(',')`: split on every comma, keeping empty pieces. -/
def splitComma : List Char → List (List Char)
  | [] => [[]]
  | c :: cs =>
    if c = ',' then [] :: splitComma cs
    else
      match splitComma cs with
      | [] => [[c]]
      | p :: ps => (c :: p) :: ps

/-- Python's `sep.join(parts)`. -/
def joinWith (sep : List Char) : List (List Char) → List Char
  | [] => []
  | [t] => t
  | t :: ts => t ++ sep ++ joinWith sep ts

/-- `' '.join(parts)`. -/
def joinSpace (ts : List (List Char)) : List Char :=
  joinWith [' '] ts

/-- Word character for the regex `\b` boundary (`\w`, ASCII range). -/
def isWordChar (c : Char) : Bool :=
  c.isAlphanum || c = '_'

/-- The char before the current scan position is absent or not a word char
(this is what `\b` requires right before a letter). -/
def nonWordBefore : Option Char → Bool
  | none => true
  | some c => !(isWordChar c)

/-- The char after a match is absent or not a word char
(this is what `\b` requires right after a letter). -/
def boundaryAfter : List Char → Bool
  | [] => true
  | c :: _ => !(isWordChar c)

/-- Case-insensitive literal match of `pat` (given lowercase) against the
front of the input. -/
def ciStartsWith : List Char → List Char → Bool
  | [], _ => true
  | _ :: _, [] => false
  | p :: ps, c :: cs => (c.toLower = p) && ciStartsWith ps cs

/-- `re.search(r'\b(AND|OR)\b', keywords, re.IGNORECASE)`: scans every
position, carrying the previous character for the `\b` test. -/
def hasOperatorsScan : Option Char → List Char → Bool
  | _, [] => false
  | prev, c :: cs =>
    if nonWordBefore prev &&
        ((ciStartsWith ['a', 'n', 'd'] (c :: cs) && boundaryAfter (cs.drop 2)) ||
         (ciStartsWith ['o', 'r'] (c :: cs) && boundaryAfter (cs.drop 1))) then
      true
    else hasOperatorsScan (some c) cs

/-- `'(' in keywords or ')' in keywords`. -/
def hasParensB (k : List Char) : Bool :=
  k.contains '(' || k.contains ')'

/-- The complex-grammar test of `build_pubmed_query`:
`has_parentheses or has_operators`. -/
def isComplexQuery (k : List Char) : Bool :=
  hasParensB k || hasOperatorsScan none k

/-- Split off a double-quoted run: `splitQuoted cs = some (run, rest)`
when `cs = run ++ '"' :: rest` with `run` quote-free (i.e. the scan for
`[^"]*"` after an opening quote). -/
def splitQuoted : List Char → Option (List Char × List Char)
  | [] => none
  | c :: cs =>
    if c = '"' then some ([], cs)
    else (splitQuoted cs).map (fun p => (c :: p.1, p.2))

/-- One attempt of the token regex
`"[^"]+"|[()]|\b(?:AND|OR)\b|[A-Za-z0-9]+` (`re.IGNORECASE`) at the
position of `c`, with `prev` the character just before it: the ordered
alternation yields an optional matched token, the new previous
character, and the rest of the input (a failed attempt skips `c`). -/
def scanStep (prev : Option Char) (c : Char) (cs : List Char) :
    Option (List Char) × Option Char × List Char :=
  if c = '"' then
    match splitQuoted cs with
    | some (run, rest) =>
      if run = [] then (none, some '"', cs)
      else (some ('"' :: (run ++ ['"'])), some '"', rest)
    | none => (none, some '"', cs)
  else if c = '(' ∨ c = ')' then
    (some [c], some c, cs)
  else if nonWordBefore prev && ciStartsWith ['a', 'n', 'd'] (c :: cs) &&
      boundaryAfter (cs.drop 2) then
    (some ((c :: cs).take 3), some (cs.getD 1 'd'), cs.drop 2)
  else if nonWordBefore prev && ciStartsWith ['o', 'r'] (c :: cs) &&
      boundaryAfter (cs.drop 1) then
    (some ((c :: cs).take 2), some (cs.getD 0 'r'), cs.drop 1)
  else if c.isAlphanum then
    (some (c :: cs.takeWhile Char.isAlphanum),
      some ((c :: cs.takeWhile Char.isAlphanum).getLastD c),
      cs.dropWhile Char.isAlphanum)
  else
    (none, some c, cs)

/-- The token scan of
`re.findall(r'"[^"]+"|[()]|\b(?:AND|OR)\b|[A-Za-z0-9]+', q, re.IGNORECASE)`:
`scanStep` applied left to right.  `fuel` only needs to be at least the
input length. -/
def scanTokens : Nat → Option Char → List Char → List (List Char)
  | 0, _, _ => []
  | _ + 1, _, [] => []
  | fuel + 1, prev, c :: cs =>
    match scanStep prev c cs with
    | (none, prev2, rest) => scanTokens fuel prev2 rest
    | (some tok, prev2, rest) => tok :: scanTokens fuel prev2 rest

/-- All tokens of the complex-grammar tokenizer. -/
def tokenizeQuery (cs : List Char) : List (List Char) :=
  scanTokens cs.length none cs

/-- The look-ahead stop condition of the unquoted-phrase loop:
`next_upper in ['AND','OR','(',')'] or next_token.startswith('"')`. -/
def isStopToken (t : List Char) : Bool :=
  let tU := t.map Char.toUpper
  tU = ['A', 'N', 'D'] || tU = ['O', 'R'] || tU = ['('] || tU = [')'] ||
    t.headD ' ' = '"'

/-- The token-processing loop of the complex branch: operators uppercased,
parentheses kept, quoted phrases tagged, consecutive bare words joined
into a quoted phrase.  `fuel` only needs to be at least the token count. -/
def processTokens : Nat → List Char → List (List Char) → List (List Char)
  | 0, _, _ => []
  | _ + 1, _, [] => []
  | fuel + 1, tag, t :: ts =>
    let tU := t.map Char.toUpper
    if tU = ['A', 'N', 'D'] ∨ tU = ['O', 'R'] then
      tU :: processTokens fuel tag ts
    else if tU = ['('] ∨ tU = [')'] then
      t :: processTokens fuel tag ts
    else if t.headD ' ' = '"' ∧ t.getLastD ' ' = '"' then
      (t ++ tag) :: processTokens fuel tag ts
    else
      let more := ts.takeWhile (fun nt => !(isStopToken nt))
      (if (t :: more).length > 1 then
        '"' :: (joinSpace (t :: more) ++ ['"'] ++ tag)
      else t ++ tag) ::
        processTokens fuel tag (ts.dropWhile (fun nt => !(isStopToken nt)))

/-- Complex branch of `build_pubmed_query`. -/
def buildComplex (tag : List Char) (k : List Char) : List Char :=
  let tokens := tokenizeQuery (pyStrip k)
  joinSpace (processTokens tokens.length tag tokens)

/-- Tag one simple-mode term: wrap in quotes when it contains a space,
then append the field tag. -/
def tagTerm (tag t : List Char) : List Char :=
  if t.contains ' ' then '"' :: (t ++ ['"'] ++ tag) else t ++ tag

/-- `f" {search_mode.upper()} "`. -/
def opSep (m : List Char) : List Char :=
  ' ' :: (m.map Char.toUpper) ++ [' ']

/-- Simple branch of `build_pubmed_query`: split on commas, strip,
drop falsy pieces, fall back to the whole stripped string, tag, join. -/
def buildSimple (tag m k : List Char) : List Char :=
  let terms0 := ((splitComma k).map pyStrip).filter (fun t => !t.isEmpty)
  let terms := if terms0.length = 0 then [pyStrip k] else terms0
  if terms = [] ∨ (terms.length = 1 ∧ terms.headD [' '] = []) then []
  else joinWith (opSep m) (terms.map (tagTerm tag))

/-- The field-tag map of `build_pubmed_query`. -/
def fieldTagOf (f : String) : List Char :=
  if f = "title" then "[Title]".data
  else if f = "abstract" then "[Abstract]".data
  else if f = "title_abstract" then "[Title/Abstract]".data
  else []

/-- Core of `build_pubmed_query` over character lists. -/
def buildQueryCore (tag : List Char) (k m : List Char) : List Char :=
  if isComplexQuery k then buildComplex tag k else buildSimple tag m k

/-- `build_pubmed_query(keywords, search_mode, search_fields)` from
`backend/main.py`. -/
def build_pubmed_query (keywords search_mode search_fields : String) : String :=
  ⟨buildQueryCore (fieldTagOf search_fields) keywords.data search_mode.data⟩

/-!
## Record extractor (`parse_pubmed_xml`)

The XML document is modelled as an element tree (tag, attributes, text,
children), mirroring what `xml.etree.ElementTree.fromstring` produces.
`fromstring` itself is external library code; its outcome is passed in as
an `Except` value: `.error` is the raised `ParseError` that the
function's `try/except` catches.  Python `Optional[str]` element text is
`Option String`; pydantic validation of the `Article` model rejects
`None` where a plain `str` is required, which the embedding renders as
`Except.error`.
-/

mutual
inductive XElem where
  | node (tag : String) (attrs : List (String × String)) (text : Option String)
      (children : XForest)
inductive XForest where
  | nil
  | cons (head : XElem) (tail : XForest)
end

def XForest.toList : XForest → List XElem
  | .nil => []
  | .cons e es => e :: es.toList

def XForest.ofList : List XElem → XForest
  | [] => .nil
  | e :: es => .cons e (XForest.ofList es)

/-- Build an element from a plain child list. -/
def el (tag : String) (attrs : List (String × String)) (text : Option String)
    (children : List XElem) : XElem :=
  .node tag attrs text (XForest.ofList children)

def XElem.tag : XElem → String
  | .node t _ _ _ => t

def XElem.attrs : XElem → List (String × String)
  | .node _ a _ _ => a

def XElem.text : XElem → Option String
  | .node _ _ x _ => x

def XElem.children : XElem → List XElem
  | .node _ _ _ ch => ch.toList

mutual
/-- All proper descendants of an element, in document (preorder) order:
the node set that an ElementTree `.//` path walks. -/
def descendants : XElem → List XElem
  | .node _ _ _ ch => descForest ch
def descForest : XForest → List XElem
  | .nil => []
  | .cons e es => e :: (descendants e ++ descForest es)
end

/-- `elem.findall(".//T")`. -/
def findallDesc (e : XElem) (t : String) : List XElem :=
  (descendants e).filter (fun d => d.tag = t)

/-- `elem.find(".//T")`. -/
def findDesc (e : XElem) (t : String) : Option XElem :=
  (descendants e).find? (fun d => d.tag = t)

/-- `elem.find(T)` (direct child). -/
def findChild (e : XElem) (t : String) : Option XElem :=
  e.children.find? (fun d => d.tag = t)

/-- `elem.find(".//P/C")`: first `C` child of a descendant `P`,
in document order. -/
def findDescChild (e : XElem) (p c : String) : Option XElem :=
  (((descendants e).filter (fun d => d.tag = p)).map
    (fun d => d.children.filter (fun x => x.tag = c))).flatten.head?

/-- `elem.find(".//T[@key='val']")`. -/
def findDescAttr (e : XElem) (t key val : String) : Option XElem :=
  (descendants e).find? (fun d => d.tag = t && d.attrs.lookup key = some val)

/-- The normalized output record (`class Article(BaseModel)`). -/
structure Article where
  id : String
  title : String
  authors : List String
  abstract : String
  publication_date : Option String
  source : String
  url : String
  journal : Option String := none
  is_open_access : Option Bool := none
  has_dataset : Option Bool := none
  classification_reason : Option String := none
  data_availability : Option String := none
  labels : Option (List String) := none
  method_types : Option (List String) := none
deriving Repr, DecidableEq

/-- Python f-string rendering of an `Optional[str]` value. -/
def pyFstr : Option String → String
  | none => "None"
  | some s => s

/-- One `Author` element: `none` when skipped (no `LastName`), otherwise
the value appended to `authors` — which is itself still `Optional[str]`
when only an empty `LastName` is present. -/
def extractAuthor (a : XElem) : Option (Option String) :=
  match findChild a "LastName", findChild a "ForeName" with
  | none, _ => none
  | some ln, none => some ln.text
  | some ln, some fn => some (some (pyFstr fn.text ++ " " ++ pyFstr ln.text))

/-- Literal prefix test over character lists (pattern first). -/
def literalPrefix : List Char → List Char → Bool
  | [], _ => true
  | _ :: _, [] => false
  | p :: ps, c :: cs => p = c && literalPrefix ps cs

/-- Python's `needle in hay` substring test. -/
def containsSub (needle : List Char) : List Char → Bool
  | [] => literalPrefix needle []
  | c :: cs => literalPrefix needle (c :: cs) || containsSub needle cs

/-- Python truthiness plus the substring test
`pt.text and "open access" in pt.text.lower()`. -/
def ptOpenAccess (pt : XElem) : Bool :=
  match pt.text with
  | none => false
  | some t =>
    !t.isEmpty && containsSub "open access".data (t.data.map Char.toLower)

/-- The open-access flag: a PMC-type `ArticleId`, then the
`PublicationType` loop that may set it to true. -/
def openAccessFlag (e : XElem) : Bool :=
  (findallDesc e "PublicationType").foldl
    (fun acc pt => if ptOpenAccess pt then true else acc)
    (findDescAttr e "ArticleId" "IdType" "pmc").isSome

/-- `List (Option α) → Option (List α)`: pydantic accepts
`authors : List[str]` only when every entry is an actual string. -/
def seqOption : List (Option String) → Option (List String)
  | [] => some []
  | none :: _ => none
  | some a :: rest => (seqOption rest).map (fun l => a :: l)

/-- `pmid = pmid_elem.text if pmid_elem is not None else "unknown"`. -/
def pmidOf (e : XElem) : Option String :=
  match findDesc e "PMID" with
  | some pe => pe.text
  | none => some "unknown"

/-- `title = title_elem.text if title_elem is not None else "No title"`. -/
def titleOf (e : XElem) : Option String :=
  match findDesc e "ArticleTitle" with
  | some te => te.text
  | none => some "No title"

/-- `abstract = ... else "No abstract available"`. -/
def abstractOf (e : XElem) : Option String :=
  match findDesc e "AbstractText" with
  | some ae => ae.text
  | none => some "No abstract available"

/-- `pub_date = pub_date_elem.text if ... else None`. -/
def pubDateOf (e : XElem) : Option String :=
  (findDescChild e "PubDate" "Year").bind XElem.text

/-- `Journal/Title`, falling back to `Journal/ISOAbbreviation`. -/
def journalOf (e : XElem) : Option String :=
  (match findDescChild e "Journal" "Title" with
   | some je => some je
   | none => findDescChild e "Journal" "ISOAbbreviation").bind XElem.text

/-- Extraction of a single `PubmedArticle` element; `.error` is the
pydantic `ValidationError` raised when a required string field got
Python `None`. -/
def extractArticle (e : XElem) : Except Unit Article :=
  match pmidOf e, titleOf e, abstractOf e,
      seqOption ((findallDesc e "Author").filterMap extractAuthor) with
  | some i, some t, some ab, some au =>
    .ok
      { id := i
        title := t
        authors := au
        abstract := ab
        publication_date := pubDateOf e
        source := "pubmed"
        url := "https://pubmed.ncbi.nlm.nih.gov/" ++ i ++ "/"
        journal := journalOf e
        is_open_access := some (openAccessFlag e) }
  | _, _, _, _ => .error ()

/-- The `for article_elem in ...` loop inside the `try` block: an
exception while building one article returns the articles accumulated
so far. -/
def extractLoop : List XElem → List Article → List Article
  | [], acc => acc.reverse
  | e :: es, acc =>
    match extractArticle e with
    | .ok a => extractLoop es (a :: acc)
    | .error _ => acc.reverse

/-- `parse_pubmed_xml(xml_text, pmids)` from `backend/main.py`.  The
first argument is the outcome of `ET.fromstring(xml_text)`; a parse
error is caught and yields the empty list. -/
def parse_pubmed_xml (xml : Except String XElem) (pmids : List String) : List Article :=
  match xml with
  | .error _ => []
  | .ok root => extractLoop (findallDesc root "PubmedArticle") []

/-!
## Specification-side definitions

`specSimpleClaim` renders the simple-grammar procedure exactly as the
claim words it (split on commas, trim, drop empty pieces, tag, join) —
with no further step.  `specSimpleFull` adds the fallback step the spec's
§4.3 describes: when dropping empty pieces leaves nothing, the whole
trimmed input is the single term, and an empty term yields the empty
string.
-/

/-- Simple-grammar compilation as the claim words it (no fallback). -/
def specSimpleClaimCore (tag m k : List Char) : List Char :=
  joinWith (opSep m)
    ((((splitComma k).map pyStrip).filter (fun t => !t.isEmpty)).map (tagTerm tag))

/-- Simple-grammar compilation as spec §4.3 describes it, fallback step
included. -/
def specSimpleFullCore (tag m k : List Char) : List Char :=
  let pieces := ((splitComma k).map pyStrip).filter (fun t => !t.isEmpty)
  if pieces = [] then
    if pyStrip k = [] then [] else tagTerm tag (pyStrip k)
  else joinWith (opSep m) (pieces.map (tagTerm tag))

/-- String-level wrapper for `specSimpleClaimCore`. -/
def specSimpleClaim (keywords search_mode search_fields : String) : String :=
  ⟨specSimpleClaimCore (fieldTagOf search_fields) search_mode.data keywords.data⟩

/-- String-level wrapper for `specSimpleFullCore`. -/
def specSimpleFull (keywords search_mode search_fields : String) : String :=
  ⟨specSimpleFullCore (fieldTagOf search_fields) search_mode.data keywords.data⟩

/-!
## LLM-backed endpoints: default substitution (`/generate-query`, `/classify`)

The parsed JSON content returned by the upstream LLM call is modelled as
an association list of JSON values; `dictGet` is Python's `dict.get`.
-/

inductive PyJson where
  | null
  | bool (b : Bool)
  | str (s : String)
  | num (n : Int)
  | arr (elems : List PyJson)
  | obj (fields : List (String × PyJson))

/-- Python `d.get(key, default)`. -/
def dictGet (d : List (String × PyJson)) (k : String) (dflt : PyJson) : PyJson :=
  (d.lookup k).getD dflt

/-- The JSON body returned by `/generate-query`. -/
structure GenerateQueryResponse where
  pubmed_query : PyJson
  extracted_concepts : PyJson
  synonyms_used : PyJson
  explanation : PyJson

/-- The response-shaping step of `generate_query`: defaults substituted
for missing keys of the LLM content. -/
def generate_query_response (content : List (String × PyJson)) : GenerateQueryResponse :=
  { pubmed_query := dictGet content "pubmed_query" (.str "")
    extracted_concepts := dictGet content "extracted_concepts" (.arr [])
    synonyms_used := dictGet content "synonyms_used" (.obj [])
    explanation := dictGet content "explanation" (.str "") }

/-- The JSON body returned by `/classify`. -/
structure ClassifyResponse where
  article_id : String
  has_dataset : PyJson
  confidence : PyJson
  reason : PyJson
  data_availability : PyJson
  labels : PyJson
  method_types : PyJson

/-- The response-shaping step of `classify_abstract`: defaults
substituted for missing keys of the LLM content. -/
def classify_response (article_id : String) (content : List (String × PyJson)) :
    ClassifyResponse :=
  { article_id := article_id
    has_dataset := dictGet content "has_dataset" (.bool false)
    confidence := dictGet content "confidence" (.str "low")
    reason := dictGet content "reason" (.str "Unable to determine")
    data_availability := dictGet content "data_availability" .null
    labels := dictGet content "labels" (.arr [])
    method_types := dictGet content "method_types" (.arr []) }

/-!
## Concrete documents used by witnesses and counterexamples
-/

/-- A `PubmedArticle` element with a present-but-empty `PMID` element:
`pmid_elem.text` is Python `None`. -/
def emptyPmidArticleElem : XElem :=
  el "PubmedArticle" [] none
    [el "MedlineCitation" [] none [el "PMID" [] none []]]

/-- A well-formed sibling `PubmedArticle` element. -/
def plainArticleElem : XElem :=
  el "PubmedArticle" [] none
    [el "PMID" [] (some "123") [], el "ArticleTitle" [] (some "T") []]

/-- The `Article` that `plainArticleElem` extracts to. -/
def plainArticle : Article :=
  { id := "123"
    title := "T"
    authors := []
    abstract := "No abstract available"
    publication_date := none
    source := "pubmed"
    url := "https://pubmed.ncbi.nlm.nih.gov/123/"
    journal := none
    is_open_access := some false }

/-- A document holding only the well-formed article. -/
def plainOnlyDoc : XElem :=
  el "PubmedArticleSet" [] none [plainArticleElem]

/-- A document where the malformed article precedes the well-formed
sibling. -/
def lostSiblingDoc : XElem :=
  el "PubmedArticleSet" [] none [emptyPmidArticleElem, plainArticleElem]

/-- An article element carrying a PMC-type identifier and no
publication-type text. -/
def pmcArticleElem : XElem :=
  el "PubmedArticle" [] none
    [el "PMID" [] (some "7") [],
     el "ArticleIdList" [] none [el "ArticleId" [("IdType", "pmc")] (some "PMC7") []]]

/-- The `Article` that `pmcArticleElem` extracts to. -/
def pmcArticle : Article :=
  { id := "7"
    title := "No title"
    authors := []
    abstract := "No abstract available"
    publication_date := none
    source := "pubmed"
    url := "https://pubmed.ncbi.nlm.nih.gov/7/"
    journal := none
    is_open_access := some true }

/-- A parenthesis character. -/
def isParen (c : Char) : Bool := c = '(' || c = ')'

/-- The subsequence of parenthesis characters of a string, in order. -/
def parensOf (cs : List Char) : List Char := cs.filter isParen

/-- Shape of every token the scanner emits: a quoted phrase, a single
parenthesis, or a parenthesis-free run. -/
def goodToken (t : List Char) : Prop :=
  (∃ run, t = '"' :: (run ++ ['"'])) ∨ t = ['('] ∨ t = [')'] ∨ parensOf t = []

/-!
## Helper lemmas
-/

theorem splitComma_no_comma : ∀ {cs : List Char}, ',' ∉ cs → splitComma cs = [cs] := by
  intro cs
  induction cs with
  | nil => intro _; rfl
  | cons c cs ih =>
    intro h
    have hc : ¬(c = ',') := by rintro rfl; exact h (List.mem_cons_self _ _)
    have hr := ih (fun m => h (List.mem_cons_of_mem _ m))
    simp [splitComma, hc, hr]

theorem pyStrip_all_space {cs : List Char} (h : ∀ c ∈ cs, isPySpace c = true) :
    pyStrip cs = [] := by
  have h1 : cs.dropWhile isPySpace = [] := List.dropWhile_eq_nil_iff.mpr h
  simp [pyStrip, h1]

theorem hasParensB_false {cs : List Char} (h1 : '(' ∉ cs) (h2 : ')' ∉ cs) :
    hasParensB cs = false := by
  simp [hasParensB]
  exact ⟨h1, h2⟩

theorem hasOperatorsScan_all_space :
    ∀ (cs : List Char) (prev : Option Char), (∀ c ∈ cs, isPySpace c = true) →
      hasOperatorsScan prev cs = false := by
  intro cs
  induction cs with
  | nil => intro prev _; rfl
  | cons c cs ih =>
    intro prev h
    have hc : isPySpace c = true := h c (List.mem_cons_self c cs)
    have hca : ¬(c.toLower = 'a') ∧ ¬(c.toLower = 'o') := by
      have hc2 := hc
      simp only [isPySpace, Bool.or_eq_true, decide_eq_true_eq] at hc2
      rcases hc2 with ((((rfl | rfl) | rfl) | rfl) | rfl) | rfl <;>
        exact ⟨by decide, by decide⟩
    have h1 : ciStartsWith ['a', 'n', 'd'] (c :: cs) = false := by
      simp [ciStartsWith, hca.1]
    have h2 : ciStartsWith ['o', 'r'] (c :: cs) = false := by
      simp [ciStartsWith, hca.2]
    simp only [hasOperatorsScan, h1, h2, Bool.false_and, Bool.or_self, Bool.and_false]
    simpa using ih (some c) (fun x hx => h x (List.mem_cons_of_mem _ hx))

theorem buildSimple_eq_specFull (tag m k : List Char) :
    buildSimple tag m k = specSimpleFullCore tag m k := by
  cases h0 : ((splitComma k).map pyStrip).filter (fun t => !t.isEmpty) with
  | nil =>
    by_cases hk : pyStrip k = []
    · simp [buildSimple, specSimpleFullCore, h0, hk]
    · simp [buildSimple, specSimpleFullCore, h0, hk, joinWith]
  | cons t ts =>
    have ht : t ∈ ((splitComma k).map pyStrip).filter (fun t => !t.isEmpty) := by
      rw [h0]; exact List.mem_cons_self _ _
    have ht3 : ¬(t = []) := by
      have h2 := (List.mem_filter.mp ht).2
      intro e
      rw [e] at h2
      exact absurd h2 (by decide)
    simp [buildSimple, specSimpleFullCore, h0, ht3]

/-!
## Claim theorems
-/

/-- C2: `build_pubmed_query("(SRM 1950 OR SRM1950) AND HILIC", "AND",
"title")` returns exactly the tokens `(`, `"SRM 1950"[Title]`, `OR`,
`SRM1950[Title]`, `)`, `AND`, `HILIC[Title]` joined by single spaces. -/
theorem C2_complex_example :
    build_pubmed_query "(SRM 1950 OR SRM1950) AND HILIC" "AND" "title" =
      "( \"SRM 1950\"[Title] OR SRM1950[Title] ) AND HILIC[Title]" := by decide

/-- C3, counterexample: `","` is a simple-grammar input on which
`build_pubmed_query` does not follow the claimed split-trim-drop-join
procedure — the code returns `","` while the claimed procedure (which
drops all empty pieces and joins what is left) returns `""`. -/
theorem C3_counterexample :
    isComplexQuery ",".data = false ∧
      build_pubmed_query "," "AND" "all" = "," ∧
      specSimpleClaim "," "AND" "all" = "" := by decide

/-- C3 (amended): for every simple-grammar input, `build_pubmed_query`
splits on commas, trims, drops empty pieces, quotes spaced terms, tags
and joins with the uppercased mode — with the fallback that when every
piece is empty the whole trimmed input becomes the single term (and an
empty term yields `""`); in particular
`build_pubmed_query("SRM 1950, HILIC", "AND", "all") = '"SRM 1950" AND HILIC'`. -/
theorem C3_simple_grammar :
    (∀ k m f : String, isComplexQuery k.data = false →
        build_pubmed_query k m f = specSimpleFull k m f) ∧
      build_pubmed_query "SRM 1950, HILIC" "AND" "all" = "\"SRM 1950\" AND HILIC" := by
  constructor
  · intro k m f h
    have hq : buildQueryCore (fieldTagOf f) k.data m.data =
        specSimpleFullCore (fieldTagOf f) m.data k.data := by
      unfold buildQueryCore
      rw [if_neg (by simp [h]), buildSimple_eq_specFull]
    exact congrArg String.mk hq
  · decide

/-- C3 witness: the amended statement applied at a concrete simple
input. -/
theorem C3_simple_grammar_witness :
    build_pubmed_query "a, b" "OR" "title" = specSimpleFull "a, b" "OR" "title" :=
  C3_simple_grammar.1 "a, b" "OR" "title" (by decide)

/-- C5: empty or whitespace-only keywords yield the empty query string,
for every mode and field scope. -/
theorem C5_blank_keywords (k m f : String) (h : ∀ c ∈ k.data, isPySpace c = true) :
    build_pubmed_query k m f = "" := by
  have hnc : ',' ∉ k.data := fun hm => absurd (h ',' hm) (by decide)
  have hnp1 : '(' ∉ k.data := fun hm => absurd (h '(' hm) (by decide)
  have hnp2 : ')' ∉ k.data := fun hm => absurd (h ')' hm) (by decide)
  have hcx : isComplexQuery k.data = false := by
    simp [isComplexQuery, hasParensB_false hnp1 hnp2, hasOperatorsScan_all_space _ _ h]
  have hsc : splitComma k.data = [k.data] := splitComma_no_comma hnc
  have hst : pyStrip k.data = [] := pyStrip_all_space h
  have hq : buildQueryCore (fieldTagOf f) k.data m.data = [] := by
    unfold buildQueryCore
    rw [if_neg (by simp [hcx])]
    simp [buildSimple, hsc, hst]
  exact congrArg String.mk hq

/-- C5 witness: the two documented instances. -/
theorem C5_blank_keywords_witness :
    build_pubmed_query "" "AND" "all" = "" ∧ build_pubmed_query "   " "OR" "all" = "" :=
  ⟨C5_blank_keywords "" "AND" "all" (by decide),
   C5_blank_keywords "   " "OR" "all" (by decide)⟩

/-- C6: when the raw text is not well-formed XML (`ET.fromstring`
raises), `parse_pubmed_xml` returns the empty sequence instead of
letting the error escape. -/
theorem C6_parse_failure_empty (err : String) (pmids : List String) :
    parse_pubmed_xml (.error err) pmids = [] := rfl

/-- C8: the output of `parse_pubmed_xml` does not depend on the `pmids`
argument in any way. -/
theorem C8_pmids_irrelevant (xml : Except String XElem) (p q : List String) :
    parse_pubmed_xml xml p = parse_pubmed_xml xml q := rfl

/-- C1 (code bug): a well-formed sibling article is extracted on its
own, but a malformed sibling (present-but-empty `PMID`, so `id=None`
fails model validation) aborts the loop and loses it. -/
theorem C1_malformed_aborts_siblings :
    parse_pubmed_xml (.ok plainOnlyDoc) ["123"] = [plainArticle] ∧
      parse_pubmed_xml (.ok lostSiblingDoc) ["0", "123"] = [] := by decide

/-- C9: each missing key of the LLM content is substituted with its
documented default, independently, on both endpoints. -/
theorem C9_llm_defaults (g c : List (String × PyJson)) (aid : String) :
    (g.lookup "pubmed_query" = none →
      (generate_query_response g).pubmed_query = .str "") ∧
    (g.lookup "extracted_concepts" = none →
      (generate_query_response g).extracted_concepts = .arr []) ∧
    (g.lookup "synonyms_used" = none →
      (generate_query_response g).synonyms_used = .obj []) ∧
    (g.lookup "explanation" = none →
      (generate_query_response g).explanation = .str "") ∧
    (c.lookup "has_dataset" = none →
      (classify_response aid c).has_dataset = .bool false) ∧
    (c.lookup "confidence" = none →
      (classify_response aid c).confidence = .str "low") ∧
    (c.lookup "reason" = none →
      (classify_response aid c).reason = .str "Unable to determine") ∧
    (c.lookup "data_availability" = none →
      (classify_response aid c).data_availability = .null) ∧
    (c.lookup "labels" = none →
      (classify_response aid c).labels = .arr []) ∧
    (c.lookup "method_types" = none →
      (classify_response aid c).method_types = .arr []) := by
  refine ⟨?_, ?_, ?_, ?_, ?_, ?_, ?_, ?_, ?_, ?_⟩ <;>
    · intro h
      simp [generate_query_response, classify_response, dictGet, h]

/-- C9 witness: all ten defaults at the empty LLM content. -/
theorem C9_llm_defaults_witness :
    (generate_query_response []).pubmed_query = .str "" ∧
    (generate_query_response []).extracted_concepts = .arr [] ∧
    (generate_query_response []).synonyms_used = .obj [] ∧
    (generate_query_response []).explanation = .str "" ∧
    (classify_response "a1" []).has_dataset = .bool false ∧
    (classify_response "a1" []).confidence = .str "low" ∧
    (classify_response "a1" []).reason = .str "Unable to determine" ∧
    (classify_response "a1" []).data_availability = .null ∧
    (classify_response "a1" []).labels = .arr [] ∧
    (classify_response "a1" []).method_types = .arr [] := by
  have h := C9_llm_defaults [] [] "a1"
  exact ⟨h.1 rfl, h.2.1 rfl, h.2.2.1 rfl, h.2.2.2.1 rfl, h.2.2.2.2.1 rfl,
    h.2.2.2.2.2.1 rfl, h.2.2.2.2.2.2.1 rfl, h.2.2.2.2.2.2.2.1 rfl,
    h.2.2.2.2.2.2.2.2.1 rfl, h.2.2.2.2.2.2.2.2.2 rfl⟩

/-- C10: any `search_fields` value outside the three recognized tags
gets the empty field tag, so the output equals the `"all"` output. -/
theorem C10_unknown_fields_like_all (k m f : String) (h1 : f ≠ "title")
    (h2 : f ≠ "abstract") (h3 : f ≠ "title_abstract") :
    build_pubmed_query k m f = build_pubmed_query k m "all" := by
  have hf : fieldTagOf f = [] := by
    simp only [fieldTagOf, if_neg h1, if_neg h2, if_neg h3]
  have ha : fieldTagOf "all" = [] := by decide
  show String.mk (buildQueryCore (fieldTagOf f) k.data m.data) =
    String.mk (buildQueryCore (fieldTagOf "all") k.data m.data)
  rw [hf, ha]

/-- C10 witness: an arbitrary unrecognized scope behaves like `"all"`. -/
theorem C10_unknown_fields_like_all_witness :
    build_pubmed_query "x, y" "AND" "bogus" = build_pubmed_query "x, y" "AND" "all" :=
  C10_unknown_fields_like_all "x, y" "AND" "bogus" (by decide) (by decide) (by decide)

theorem ptOpenAccess_none {tg : String} {a : List (String × String)} {ch : XForest} :
    ptOpenAccess (XElem.node tg a none ch) = false := rfl

theorem ptOpenAccess_some {tg : String} {a : List (String × String)} {t : String}
    {ch : XForest} :
    ptOpenAccess (XElem.node tg a (some t) ch) =
      (!t.isEmpty && containsSub "open access".data (t.data.map Char.toLower)) := rfl

theorem ptOpenAccess_iff (d : XElem) :
    ptOpenAccess d = true ↔
      ∃ t, d.text = some t ∧
        containsSub "open access".data (t.data.map Char.toLower) = true := by
  cases d with
  | node tg a tx ch =>
    cases tx with
    | none => simp [ptOpenAccess_none, XElem.text]
    | some t =>
      rw [ptOpenAccess_some]
      simp only [XElem.text, Bool.and_eq_true, Option.some.injEq]
      constructor
      · rintro ⟨_, h2⟩
        exact ⟨t, rfl, h2⟩
      · rintro ⟨t2, rfl, h2⟩
        refine ⟨?_, h2⟩
        cases he : t.isEmpty with
        | false => rfl
        | true =>
          rw [(String.isEmpty_iff t).mp he] at h2
          exact absurd h2 (by decide)

theorem foldl_oa_eq (l : List XElem) (b : Bool) :
    l.foldl (fun acc pt => if ptOpenAccess pt then true else acc) b =
      (b || l.any ptOpenAccess) := by
  induction l generalizing b with
  | nil => simp
  | cons x xs ih =>
    rw [List.foldl_cons, ih]
    cases hx : ptOpenAccess x <;> simp [hx]

theorem openAccessFlag_iff (e : XElem) :
    openAccessFlag e = true ↔
      ((∃ d ∈ descendants e, d.tag = "ArticleId" ∧
          d.attrs.lookup "IdType" = some "pmc") ∨
       (∃ d ∈ descendants e, d.tag = "PublicationType" ∧
          ∃ t, d.text = some t ∧
            containsSub "open access".data (t.data.map Char.toLower) = true)) := by
  unfold openAccessFlag
  rw [foldl_oa_eq, Bool.or_eq_true]
  simp only [findDescAttr, findallDesc, List.find?_isSome, List.any_eq_true,
    List.mem_filter, Bool.and_eq_true, decide_eq_true_eq, ptOpenAccess_iff, and_assoc]

/-- C7: an extracted `Article` has `is_open_access = true` exactly when
the article element has a PMC-type `ArticleId` descendant, or some
`PublicationType` descendant whose text contains the case-insensitive
substring `"open access"`. -/
theorem C7_open_access_iff (e : XElem) (a : Article)
    (h : extractArticle e = .ok a) :
    (a.is_open_access = some true ↔
      ((∃ d ∈ descendants e, d.tag = "ArticleId" ∧
          d.attrs.lookup "IdType" = some "pmc") ∨
       (∃ d ∈ descendants e, d.tag = "PublicationType" ∧
          ∃ t, d.text = some t ∧
            containsSub "open access".data (t.data.map Char.toLower) = true))) := by
  have hoa : a.is_open_access = some (openAccessFlag e) := by
    unfold extractArticle at h
    split at h
    · injection h with h2
      rw [← h2]
    · exact Except.noConfusion h
  rw [hoa]
  simp only [Option.some.injEq]
  exact openAccessFlag_iff e

/-- C7 witness: the PMC-identifier document extracts to an open-access
article. -/
theorem C7_open_access_iff_witness :
    (pmcArticle.is_open_access = some true ↔
      ((∃ d ∈ descendants pmcArticleElem, d.tag = "ArticleId" ∧
          d.attrs.lookup "IdType" = some "pmc") ∨
       (∃ d ∈ descendants pmcArticleElem, d.tag = "PublicationType" ∧
          ∃ t, d.text = some t ∧
            containsSub "open access".data (t.data.map Char.toLower) = true))) :=
  C7_open_access_iff pmcArticleElem pmcArticle rfl

theorem parensOf_append (a b : List Char) :
    parensOf (a ++ b) = parensOf a ++ parensOf b := by
  unfold parensOf
  exact List.filter_append a b

theorem parensOf_cons_pos {c : Char} (cs : List Char) (h : isParen c = true) :
    parensOf (c :: cs) = c :: parensOf cs := by
  simp [parensOf, List.filter_cons, h]

theorem parensOf_cons_neg {c : Char} (cs : List Char) (h : isParen c = false) :
    parensOf (c :: cs) = parensOf cs := by
  simp [parensOf, List.filter_cons, h]

theorem isParen_char_cases {c : Char} (h : isParen c = true) : c = '(' ∨ c = ')' := by
  simpa [isParen] using h

theorem space_not_paren {c : Char} (h : isPySpace c = true) : isParen c = false := by
  have h2 := h
  simp only [isPySpace, Bool.or_eq_true, decide_eq_true_eq] at h2
  rcases h2 with ((((rfl | rfl) | rfl) | rfl) | rfl) | rfl <;> decide

theorem paren_toLower_self {c : Char} (h : isParen c = true) : c.toLower = c := by
  rcases isParen_char_cases h with rfl | rfl <;> decide

theorem paren_toUpper_self {c : Char} (h : isParen c = true) : c.toUpper = c := by
  rcases isParen_char_cases h with rfl | rfl <;> decide

theorem not_paren_of_lower_eq {c x : Char} (hl : c.toLower = x)
    (hx : isParen x = false) : isParen c = false := by
  cases hp : isParen c with
  | false => rfl
  | true =>
    rw [paren_toLower_self hp] at hl
    subst hl
    rw [hp] at hx
    exact hx

theorem alnum_not_paren {c : Char} (h : c.isAlphanum = true) : isParen c = false := by
  cases hp : isParen c with
  | false => rfl
  | true => rcases isParen_char_cases hp with rfl | rfl <;> exact absurd h (by decide)

theorem parensOf_reverse (l : List Char) : parensOf l.reverse = (parensOf l).reverse :=
  List.filter_reverse _ _

theorem parensOf_dropWhile_space (l : List Char) :
    parensOf (l.dropWhile isPySpace) = parensOf l := by
  induction l with
  | nil => rfl
  | cons c cs ih =>
    cases hc : isPySpace c with
    | false => simp [List.dropWhile_cons, hc]
    | true =>
      rw [List.dropWhile_cons]
      simp only [hc, if_true, ite_true]
      rw [ih, parensOf_cons_neg cs (space_not_paren hc)]

theorem parensOf_pyStrip (l : List Char) : parensOf (pyStrip l) = parensOf l := by
  unfold pyStrip
  rw [parensOf_reverse, parensOf_dropWhile_space, parensOf_reverse,
    List.reverse_reverse, parensOf_dropWhile_space]

theorem splitQuoted_eq :
    ∀ (cs run rest : List Char), splitQuoted cs = some (run, rest) →
      cs = run ++ '"' :: rest := by
  intro cs
  induction cs with
  | nil => intro run rest h; exact absurd h (by simp [splitQuoted])
  | cons c cs ih =>
    intro run rest h
    by_cases hc : c = '"'
    · subst hc
      simp [splitQuoted] at h
      obtain ⟨h1, h2⟩ := h
      subst h1
      subst h2
      rfl
    · simp only [splitQuoted, if_neg hc] at h
      cases hq : splitQuoted cs with
      | none => rw [hq] at h; exact absurd h (by simp)
      | some p =>
        rw [hq] at h
        simp at h
        obtain ⟨h1, h2⟩ := h
        subst h1
        subst h2
        rw [List.cons_append]
        exact congrArg (List.cons c) (ih p.1 p.2 hq)

theorem ciStartsWith3 {p1 p2 p3 c : Char} {cs : List Char}
    (h : ciStartsWith [p1, p2, p3] (c :: cs) = true) :
    ∃ c1 c2 cs2, cs = c1 :: c2 :: cs2 ∧
      c.toLower = p1 ∧ c1.toLower = p2 ∧ c2.toLower = p3 := by
  match cs with
  | [] => exact absurd h (by simp [ciStartsWith])
  | [c1] => exact absurd h (by simp [ciStartsWith])
  | c1 :: c2 :: cs2 =>
    simp only [ciStartsWith, Bool.and_eq_true, decide_eq_true_eq] at h
    exact ⟨c1, c2, cs2, rfl, h.1, h.2.1, h.2.2.1⟩

theorem ciStartsWith2 {p1 p2 c : Char} {cs : List Char}
    (h : ciStartsWith [p1, p2] (c :: cs) = true) :
    ∃ c1 cs2, cs = c1 :: cs2 ∧ c.toLower = p1 ∧ c1.toLower = p2 := by
  match cs with
  | [] => exact absurd h (by simp [ciStartsWith])
  | c1 :: cs2 =>
    simp only [ciStartsWith, Bool.and_eq_true, decide_eq_true_eq] at h
    exact ⟨c1, cs2, rfl, h.1, h.2.1⟩

theorem quote_not_paren : isParen '"' = false := by decide

theorem scanStep_cases (prev : Option Char) (c : Char) (cs : List Char) :
    parensOf ((scanStep prev c cs).1.getD []) ++ parensOf (scanStep prev c cs).2.2 =
        parensOf (c :: cs) ∧
      (scanStep prev c cs).2.2.length ≤ cs.length ∧
      ∀ tok, (scanStep prev c cs).1 = some tok → goodToken tok := by
  by_cases h1 : c = '"'
  · subst h1
    cases hq : splitQuoted cs with
    | none =>
      have hs2 : scanStep prev '"' cs = (none, some '"', cs) := by
        unfold scanStep
        rw [if_pos rfl, hq]
      rw [hs2]
      refine ⟨?_, Nat.le_refl _, ?_⟩
      · rw [@parensOf_cons_neg '"' cs quote_not_paren]; rfl
      · intro tok htok; exact absurd htok (by simp)
    | some p =>
      obtain ⟨run, rest⟩ := p
      have hcseq := splitQuoted_eq cs run rest hq
      by_cases hr : run = []
      · have hs2 : scanStep prev '"' cs = (none, some '"', cs) := by
          unfold scanStep
          rw [if_pos rfl, hq]
          exact if_pos hr
        rw [hs2]
        refine ⟨?_, Nat.le_refl _, ?_⟩
        · rw [@parensOf_cons_neg '"' cs quote_not_paren]; rfl
        · intro tok htok; exact absurd htok (by simp)
      · have hs2 : scanStep prev '"' cs =
            (some ('"' :: (run ++ ['"'])), some '"', rest) := by
          unfold scanStep
          rw [if_pos rfl, hq]
          exact if_neg hr
        rw [hs2]
        refine ⟨?_, ?_, ?_⟩
        · show parensOf ('"' :: (run ++ ['"'])) ++ parensOf rest = parensOf ('"' :: cs)
          rw [@parensOf_cons_neg '"' (run ++ ['"']) quote_not_paren,
            @parensOf_cons_neg '"' cs quote_not_paren, parensOf_append run ['"'], hcseq,
            parensOf_append run ('"' :: rest), @parensOf_cons_neg '"' rest quote_not_paren]
          simp [parensOf, quote_not_paren]
        · show rest.length ≤ cs.length
          rw [hcseq]
          simp [List.length_append]
          omega
        · intro tok htok
          injection htok with h2
          rw [← h2]
          exact Or.inl ⟨run, rfl⟩
  · by_cases hp : c = '(' ∨ c = ')'
    · have hs2 : scanStep prev c cs = (some [c], some c, cs) := by
        unfold scanStep
        rw [if_neg h1]
        exact if_pos hp
      rw [hs2]
      have hcp : isParen c = true := by
        rcases hp with rfl | rfl <;> decide
      refine ⟨?_, Nat.le_refl _, ?_⟩
      · show parensOf [c] ++ parensOf cs = parensOf (c :: cs)
        rw [@parensOf_cons_pos c cs hcp, @parensOf_cons_pos c [] hcp]
        rfl
      · intro tok htok
        injection htok with h2
        rw [← h2]
        rcases hp with rfl | rfl
        · exact Or.inr (Or.inl rfl)
        · exact Or.inr (Or.inr (Or.inl rfl))
    · by_cases hA : (nonWordBefore prev && ciStartsWith ['a', 'n', 'd'] (c :: cs) &&
          boundaryAfter (cs.drop 2)) = true
      · have hA2 := hA
        simp only [Bool.and_eq_true] at hA2
        obtain ⟨⟨hnw, hci⟩, hba⟩ := hA2
        obtain ⟨c1, c2, cs2, rfl, hl0, hl1, hl2⟩ := ciStartsWith3 hci
        have hs2 : scanStep prev c (c1 :: c2 :: cs2) = (some [c, c1, c2], some c2, cs2) := by
          unfold scanStep
          rw [if_neg h1, if_neg hp, if_pos hA]
          rfl
        rw [hs2]
        have np0 : isParen c = false := not_paren_of_lower_eq hl0 (by decide)
        have np1 : isParen c1 = false := not_paren_of_lower_eq hl1 (by decide)
        have np2 : isParen c2 = false := not_paren_of_lower_eq hl2 (by decide)
        refine ⟨?_, ?_, ?_⟩
        · show parensOf [c, c1, c2] ++ parensOf cs2 = parensOf (c :: c1 :: c2 :: cs2)
          rw [@parensOf_cons_neg c (c1 :: c2 :: cs2) np0,
            @parensOf_cons_neg c1 (c2 :: cs2) np1, @parensOf_cons_neg c2 cs2 np2,
            @parensOf_cons_neg c [c1, c2] np0, @parensOf_cons_neg c1 [c2] np1,
            @parensOf_cons_neg c2 [] np2]
          rfl
        · show cs2.length ≤ (c1 :: c2 :: cs2).length
          simp
          omega
        · intro tok htok
          injection htok with h2
          rw [← h2]
          refine Or.inr (Or.inr (Or.inr ?_))
          rw [@parensOf_cons_neg c [c1, c2] np0, @parensOf_cons_neg c1 [c2] np1,
            @parensOf_cons_neg c2 [] np2]
          rfl
      · by_cases hB : (nonWordBefore prev && ciStartsWith ['o', 'r'] (c :: cs) &&
            boundaryAfter (cs.drop 1)) = true
        · have hB2 := hB
          simp only [Bool.and_eq_true] at hB2
          obtain ⟨⟨hnw, hci⟩, hba⟩ := hB2
          obtain ⟨c1, cs2, rfl, hl0, hl1⟩ := ciStartsWith2 hci
          have hs2 : scanStep prev c (c1 :: cs2) = (some [c, c1], some c1, cs2) := by
            unfold scanStep
            rw [if_neg h1, if_neg hp, if_neg hA, if_pos hB]
            rfl
          rw [hs2]
          have np0 : isParen c = false := not_paren_of_lower_eq hl0 (by decide)
          have np1 : isParen c1 = false := not_paren_of_lower_eq hl1 (by decide)
          refine ⟨?_, ?_, ?_⟩
          · show parensOf [c, c1] ++ parensOf cs2 = parensOf (c :: c1 :: cs2)
            rw [@parensOf_cons_neg c (c1 :: cs2) np0, @parensOf_cons_neg c1 cs2 np1,
              @parensOf_cons_neg c [c1] np0, @parensOf_cons_neg c1 [] np1]
            rfl
          · show cs2.length ≤ (c1 :: cs2).length
            simp
          · intro tok htok
            injection htok with h2
            rw [← h2]
            refine Or.inr (Or.inr (Or.inr ?_))
            rw [@parensOf_cons_neg c [c1] np0, @parensOf_cons_neg c1 [] np1]
            rfl
        · by_cases hw : c.isAlphanum = true
          · have hs2 : scanStep prev c cs =
                (some (c :: cs.takeWhile Char.isAlphanum),
                  some ((c :: cs.takeWhile Char.isAlphanum).getLastD c),
                  cs.dropWhile Char.isAlphanum) := by
              unfold scanStep
              rw [if_neg h1, if_neg hp, if_neg hA, if_neg hB, if_pos hw]
            rw [hs2]
            have htw : parensOf (cs.takeWhile Char.isAlphanum) = [] := by
              apply List.filter_eq_nil_iff.mpr
              intro a ha
              simp [alnum_not_paren (List.mem_takeWhile_imp ha)]
            have hnpc : isParen c = false := alnum_not_paren hw
            refine ⟨?_, ?_, ?_⟩
            · show parensOf (c :: cs.takeWhile Char.isAlphanum) ++
                  parensOf (cs.dropWhile Char.isAlphanum) = parensOf (c :: cs)
              rw [@parensOf_cons_neg c (cs.takeWhile Char.isAlphanum) hnpc,
                @parensOf_cons_neg c cs hnpc, htw]
              conv_rhs => rw [← List.takeWhile_append_dropWhile (p := Char.isAlphanum) (l := cs)]
              rw [parensOf_append, htw]
            · exact (List.dropWhile_suffix _).sublist.length_le
            · intro tok htok
              injection htok with h2
              rw [← h2]
              refine Or.inr (Or.inr (Or.inr ?_))
              rw [@parensOf_cons_neg c (cs.takeWhile Char.isAlphanum) hnpc, htw]
          · have hs2 : scanStep prev c cs = (none, some c, cs) := by
              unfold scanStep
              rw [if_neg h1, if_neg hp, if_neg hA, if_neg hB, if_neg hw]
            rw [hs2]
            have hnpc : isParen c = false := by
              cases hic : isParen c with
              | false => rfl
              | true => exact absurd (isParen_char_cases hic) hp
            refine ⟨?_, Nat.le_refl _, ?_⟩
            · rw [@parensOf_cons_neg c cs hnpc]; rfl
            · intro tok htok; exact absurd htok (by simp)

theorem mem_of_mem_takeWhile {α : Type} {p : α → Bool} {l : List α} {x : α}
    (hx : x ∈ l.takeWhile p) : x ∈ l := by
  have ht := List.takeWhile_append_dropWhile (p := p) (l := l)
  rw [← ht]
  exact List.mem_append_left _ hx

theorem getLastD_quote (run : List Char) : ('"' :: (run ++ ['"'])).getLastD ' ' = '"' := by
  rw [show ('"' :: (run ++ ['"'])) = ('"' :: run) ++ ['"'] from by simp]
  exact List.getLastD_concat _ _ _

theorem parens_nil_of_upper {t L : List Char} (h : t.map Char.toUpper = L)
    (hL : ∀ x ∈ L, isParen x = false) : parensOf t = [] := by
  apply List.filter_eq_nil_iff.mpr
  intro a ha hpa
  have hmem : a.toUpper ∈ L := by rw [← h]; exact List.mem_map_of_mem _ ha
  have hup := hL _ hmem
  rw [paren_toUpper_self hpa, hpa] at hup
  exact Bool.noConfusion hup

theorem scanTokens_parens :
    ∀ (fuel : Nat) (prev : Option Char) (cs : List Char), cs.length ≤ fuel →
      ((scanTokens fuel prev cs).map parensOf).flatten = parensOf cs := by
  intro fuel
  induction fuel with
  | zero =>
    intro prev cs h
    have he : cs = [] := List.length_eq_zero.mp (Nat.le_zero.mp h)
    subst he
    rfl
  | succ fuel ih =>
    intro prev cs h
    cases cs with
    | nil => rfl
    | cons c cs2 =>
      obtain ⟨hpar, hlen, _⟩ := scanStep_cases prev c cs2
      cases hs : scanStep prev c cs2 with
      | mk tok pr =>
        obtain ⟨prev2, rest⟩ := pr
        rw [hs] at hpar hlen
        have hr : rest.length ≤ fuel := Nat.le_trans hlen (Nat.le_of_succ_le_succ h)
        cases tok with
        | none =>
          simp only [scanTokens, hs]
          rw [ih prev2 rest hr]
          simpa using hpar
        | some tk =>
          simp only [scanTokens, hs, List.map_cons, List.flatten_cons]
          rw [ih prev2 rest hr]
          simpa using hpar

theorem scanTokens_good :
    ∀ (fuel : Nat) (prev : Option Char) (cs : List Char) (t : List Char),
      t ∈ scanTokens fuel prev cs → goodToken t := by
  intro fuel
  induction fuel with
  | zero => intro prev cs t ht; exact absurd ht (by simp [scanTokens])
  | succ fuel ih =>
    intro prev cs t ht
    cases cs with
    | nil => exact absurd ht (by simp [scanTokens])
    | cons c cs2 =>
      obtain ⟨_, _, hgood⟩ := scanStep_cases prev c cs2
      cases hs : scanStep prev c cs2 with
      | mk tok pr =>
        obtain ⟨prev2, rest⟩ := pr
        rw [hs] at hgood
        simp only [scanTokens, hs] at ht
        cases tok with
        | none => exact ih prev2 rest t ht
        | some tk =>
          rcases List.mem_cons.mp ht with rfl | ht2
          · exact hgood t rfl
          · exact ih prev2 rest t ht2

theorem parensOf_joinWith {sep : List Char} (hsep : parensOf sep = []) :
    ∀ ts : List (List Char), parensOf (joinWith sep ts) = (ts.map parensOf).flatten := by
  intro ts
  induction ts with
  | nil => rfl
  | cons t ts ih =>
    cases ts with
    | nil => simp [joinWith]
    | cons t2 ts2 =>
      rw [show joinWith sep (t :: t2 :: ts2) = t ++ sep ++ joinWith sep (t2 :: ts2) from rfl]
      rw [parensOf_append, parensOf_append, hsep, ih]
      simp

theorem parensOf_joinSpace (ts : List (List Char)) :
    parensOf (joinSpace ts) = (ts.map parensOf).flatten := by
  unfold joinSpace
  exact parensOf_joinWith (by decide) ts

theorem processTokens_parens :
    ∀ (fuel : Nat) (tag : List Char) (ts : List (List Char)),
      ts.length ≤ fuel → (∀ t ∈ ts, goodToken t) → parensOf tag = [] →
      ((processTokens fuel tag ts).map parensOf).flatten = (ts.map parensOf).flatten := by
  intro fuel
  induction fuel with
  | zero =>
    intro tag ts h _ _
    have he : ts = [] := List.length_eq_zero.mp (Nat.le_zero.mp h)
    subst he
    rfl
  | succ fuel ih =>
    intro tag ts hlen hgood htag
    cases ts with
    | nil => rfl
    | cons t ts2 =>
      have hlen2 : ts2.length ≤ fuel := Nat.le_of_succ_le_succ hlen
      have hgood2 : ∀ x ∈ ts2, goodToken x := fun x hx => hgood x (List.mem_cons_of_mem _ hx)
      have hgt := hgood t (List.mem_cons_self _ _)
      by_cases hop : (t.map Char.toUpper = ['A', 'N', 'D'] ∨ t.map Char.toUpper = ['O', 'R'])
      · have hred : processTokens (fuel + 1) tag (t :: ts2) =
            (t.map Char.toUpper) :: processTokens fuel tag ts2 := by
          simp only [processTokens]
          rw [if_pos hop]
        rw [hred]
        simp only [List.map_cons, List.flatten_cons]
        rw [ih tag ts2 hlen2 hgood2 htag]
        have h1 : parensOf (t.map Char.toUpper) = [] := by
          rcases hop with h | h <;> rw [h] <;> decide
        have h2 : parensOf t = [] := by
          rcases hop with h | h <;> exact parens_nil_of_upper h (by decide)
        rw [h1, h2]
      · by_cases hpar : (t.map Char.toUpper = ['('] ∨ t.map Char.toUpper = [')'])
        · have hred : processTokens (fuel + 1) tag (t :: ts2) =
              t :: processTokens fuel tag ts2 := by
            simp only [processTokens]
            rw [if_neg hop, if_pos hpar]
          rw [hred]
          simp only [List.map_cons, List.flatten_cons]
          rw [ih tag ts2 hlen2 hgood2 htag]
        · by_cases hqt : (t.headD ' ' = '"' ∧ t.getLastD ' ' = '"')
          · have hred : processTokens (fuel + 1) tag (t :: ts2) =
                (t ++ tag) :: processTokens fuel tag ts2 := by
              simp only [processTokens]
              rw [if_neg hop, if_neg hpar, if_pos hqt]
            rw [hred]
            simp only [List.map_cons, List.flatten_cons]
            rw [ih tag ts2 hlen2 hgood2 htag, parensOf_append, htag]
            simp
          · have hred : processTokens (fuel + 1) tag (t :: ts2) =
                (if (t :: ts2.takeWhile (fun nt => !(isStopToken nt))).length > 1 then
                  '"' :: (joinSpace (t :: ts2.takeWhile (fun nt => !(isStopToken nt))) ++
                    ['"'] ++ tag)
                else t ++ tag) ::
                  processTokens fuel tag (ts2.dropWhile (fun nt => !(isStopToken nt))) := by
              simp only [processTokens]
              rw [if_neg hop, if_neg hpar, if_neg hqt]
            rw [hred]
            have hpt : parensOf t = [] := by
              rcases hgt with ⟨run, rfl⟩ | rfl | rfl | h4
              · exact absurd ⟨rfl, getLastD_quote run⟩ hqt
              · exact absurd (Or.inl (by decide)) hpar
              · exact absurd (Or.inr (by decide)) hpar
              · exact h4
            have hmore : ∀ x ∈ ts2.takeWhile (fun nt => !(isStopToken nt)),
                parensOf x = [] := by
              intro x hx
              have hstop : isStopToken x = false := by
                have hsx := List.mem_takeWhile_imp hx
                simpa using hsx
              have hx2 : x ∈ ts2 := mem_of_mem_takeWhile hx
              rcases hgood2 x hx2 with ⟨run, rfl⟩ | rfl | rfl | h4
              · have hst : isStopToken ('"' :: (run ++ ['"'])) = true := by
                  simp [isStopToken]
                rw [hst] at hstop
                exact Bool.noConfusion hstop
              · have hst : isStopToken ['('] = true := by decide
                rw [hst] at hstop
                exact Bool.noConfusion hstop
              · have hst : isStopToken [')'] = true := by decide
                rw [hst] at hstop
                exact Bool.noConfusion hstop
              · exact h4
            have hlen3 : (ts2.dropWhile (fun nt => !(isStopToken nt))).length ≤ fuel :=
              Nat.le_trans (List.dropWhile_suffix _).sublist.length_le hlen2
            have hgood3 : ∀ x ∈ ts2.dropWhile (fun nt => !(isStopToken nt)), goodToken x :=
              fun x hx => hgood2 x ((List.dropWhile_suffix _).sublist.subset hx)
            simp only [List.map_cons, List.flatten_cons]
            rw [ih tag _ hlen3 hgood3 htag]
            have hjoin : (List.map parensOf
                (t :: ts2.takeWhile (fun nt => !(isStopToken nt)))).flatten = [] := by
              apply List.flatten_eq_nil_iff.mpr
              intro l hl
              obtain ⟨x, hx, rfl⟩ := List.mem_map.mp hl
              rcases List.mem_cons.mp hx with rfl | hx2
              · exact hpt
              · exact hmore x hx2
            have hite : parensOf
                (if (t :: ts2.takeWhile (fun nt => !(isStopToken nt))).length > 1 then
                  '"' :: (joinSpace (t :: ts2.takeWhile (fun nt => !(isStopToken nt))) ++
                    ['"'] ++ tag)
                else t ++ tag) = [] := by
              by_cases hl : (t :: ts2.takeWhile (fun nt => !(isStopToken nt))).length > 1
              · rw [if_pos hl]
                rw [@parensOf_cons_neg '"' _ quote_not_paren, parensOf_append,
                  parensOf_append, htag, parensOf_joinSpace, hjoin]
                rfl
              · rw [if_neg hl, parensOf_append, hpt, htag]
                rfl
            rw [hite]
            conv_rhs => rw [← List.takeWhile_append_dropWhile
              (p := fun nt => !(isStopToken nt)) (l := ts2)]
            rw [List.map_append, List.flatten_append]
            have hjoin2 : (List.map parensOf
                (ts2.takeWhile (fun nt => !(isStopToken nt)))).flatten = [] := by
              apply List.flatten_eq_nil_iff.mpr
              intro l hl
              obtain ⟨x, hx, rfl⟩ := List.mem_map.mp hl
              exact hmore x hx
            rw [hjoin2, hpt]
            rfl

theorem fieldTagOf_parens (f : String) : parensOf (fieldTagOf f) = [] := by
  unfold fieldTagOf
  by_cases h1 : f = "title"
  · rw [if_pos h1]; decide
  · rw [if_neg h1]
    by_cases h2 : f = "abstract"
    · rw [if_pos h2]; decide
    · rw [if_neg h2]
      by_cases h3 : f = "title_abstract"
      · rw [if_pos h3]; decide
      · rw [if_neg h3]; rfl

/-- C4: on complex-grammar inputs, the parenthesis characters of the
output of `build_pubmed_query` are exactly those of the input, unchanged
and in the same relative order. -/
theorem C4_parens_preserved (k m f : String) (h : isComplexQuery k.data = true) :
    parensOf (build_pubmed_query k m f).data = parensOf k.data := by
  have hb : buildQueryCore (fieldTagOf f) k.data m.data =
      buildComplex (fieldTagOf f) k.data := by
    unfold buildQueryCore
    rw [if_pos h]
  show parensOf (buildQueryCore (fieldTagOf f) k.data m.data) = parensOf k.data
  rw [hb]
  show parensOf (joinSpace (processTokens (tokenizeQuery (pyStrip k.data)).length
      (fieldTagOf f) (tokenizeQuery (pyStrip k.data)))) = parensOf k.data
  rw [parensOf_joinSpace]
  unfold tokenizeQuery
  rw [processTokens_parens _ _ _ (Nat.le_refl _)
    (fun t ht => scanTokens_good _ _ _ t ht) (fieldTagOf_parens f)]
  rw [scanTokens_parens _ _ _ (Nat.le_refl _)]
  exact parensOf_pyStrip _

/-- C4 witness: a concrete complex input keeps its parentheses. -/
theorem C4_parens_preserved_witness :
    parensOf (build_pubmed_query "(a OR b)" "AND" "all").data =
      parensOf "(a OR b)".data :=
  C4_parens_preserved "(a OR b)" "AND" "all" (by decide)
